import Mathlib

/-!
Verification development for the me-dashboard repository.

The repository is a staking-analytics dashboard.  Its computational core is
shallowly embedded here:

* `calcVotingPower`, `getPercentileThresholds` — the metrics engine
  (`src/utils.ts`), with JavaScript numbers modelled as exact rationals.
* the day-bucketed delta aggregator of the main `App` component
  (the variant that accumulates signed open/close deltas per calendar day,
  fills gaps up to the current day and emits cumulative totals).  Day keys
  (`format(new Date(ts*1000), 'yyyy-MM-dd')` in a fixed reference time zone)
  are modelled as the floor of the Unix timestamp divided by 86400, which
  preserves the ordering and adjacency structure the aggregator relies on.
* the snapshot fetcher of the same component: the try/catch body of
  `fetchData` as a pure step from a fetch outcome to the component state,
  and the post-loading render dispatch of `App`.
-/

namespace MEDash

/-- One staking position, as in `src/types.ts` (`Staker`).  Numeric fields
are JavaScript numbers, modelled as exact rationals; timestamps are integer
Unix seconds. -/
structure Staker where
  wallet : String
  uiStakingPower : ℚ
  uiAmount : ℚ
  startTs : ℤ
  endTs : ℤ
  duration : ℤ
deriving DecidableEq, Repr

/-! ## Metrics engine (`src/utils.ts`) -/

/-- Embedding of `calcVotingPower` from `src/utils.ts`.  The local constants
`duration`, `maxVotingPower` and `lockupDurationRange` of the source are
inlined (`duration = lockupEndTs - lockupStartTs`,
`maxVotingPower = lockupAmt * lockupTargetVotingPct / 100`,
`lockupDurationRange = lockupMaxSaturation - lockupMinDuration`); the guard
order is exactly that of the source. -/
def calcVotingPower (lockupAmt lockupStartTs lockupEndTs lockupMinDuration
    lockupMaxSaturation lockupTargetVotingPct now : ℚ) : ℚ :=
  if now > lockupEndTs then 0
  else if lockupEndTs ≤ lockupStartTs then 0
  else if lockupEndTs - lockupStartTs ≤ lockupMinDuration then lockupAmt
  else if lockupEndTs - lockupStartTs ≥ lockupMaxSaturation then
    lockupAmt * lockupTargetVotingPct / 100
  else if lockupMaxSaturation - lockupMinDuration ≤ 0 then 0
  else
    lockupAmt +
      (lockupAmt * lockupTargetVotingPct / 100 - lockupAmt) *
        (lockupEndTs - lockupStartTs - lockupMinDuration) /
        (lockupMaxSaturation - lockupMinDuration)

/-- Reference definition written from the specification's words: 0 on an
expired or degenerate window, `amount` at or below the minimum duration,
`maxPower` at or above saturation, and otherwise the linear interpolation
`amount + (maxPower - amount) * (duration - minDuration) /
(maxSaturationDuration - minDuration)`.  The specification's separate
"misconfigured range returns 0" sentence is deliberately not part of this
piecewise reference; the claim under test lists exactly these cases. -/
def votingPowerSpec (amt s e mn mx pct now : ℚ) : ℚ :=
  if now > e ∨ e ≤ s then 0
  else if e - s ≤ mn then amt
  else if e - s ≥ mx then amt * pct / 100
  else amt + (amt * pct / 100 - amt) * (e - s - mn) / (mx - mn)

/-- Stable insertion of a staker into a list that is sorted descending by
`uiStakingPower`: the new element goes before the first strictly smaller
power, after any equal one.  This is the tie behaviour of the stable
`Array.prototype.sort` with comparator `(a, b) => b.uiStakingPower -
a.uiStakingPower` used by `getPercentileThresholds`. -/
def insertDesc (s : Staker) : List Staker → List Staker
  | [] => [s]
  | t :: ts =>
    if t.uiStakingPower < s.uiStakingPower then s :: t :: ts
    else t :: insertDesc s ts

/-- Stable descending sort by `uiStakingPower`, modelling
`[...stakers].sort((a, b) => b.uiStakingPower - a.uiStakingPower)`. -/
def sortDesc (l : List Staker) : List Staker :=
  l.foldr insertDesc []

/-- Embedding of `sortedPowers[i]?.uiStakingPower || 0`: the optional index
followed by JavaScript falsiness coalescing (a power of `0` is falsy and is
replaced by the literal `0`, which is the same value). -/
def thresholdOrZero (l : List Staker) (i : ℕ) : ℚ :=
  match l[i]? with
  | some s => if s.uiStakingPower = 0 then 0 else s.uiStakingPower
  | none => 0

/-- Result shape of `getPercentileThresholds`. -/
structure Thresholds where
  top1 : ℚ
  top10 : ℚ
deriving DecidableEq, Repr

/-- Embedding of `getPercentileThresholds` from `src/utils.ts`.
`Math.floor(stakers.length * 0.01)` and `Math.floor(stakers.length * 0.1)`
are the natural-number divisions by 100 and 10 under the exact-arithmetic
model of JavaScript numbers used throughout this file. -/
def getPercentileThresholds (stakers : List Staker) : Thresholds :=
  { top1 := thresholdOrZero (sortDesc stakers) (stakers.length / 100)
    top10 := thresholdOrZero (sortDesc stakers) (stakers.length / 10) }

/-! ## Time-series aggregator (delta variant of `App`) -/

/-- Calendar-day bucket of a Unix timestamp (seconds), in the fixed
reference time zone: floor division by 86400. -/
def dayBucket (ts : ℤ) : ℤ :=
  Int.fdiv ts 86400

/-- Day bucket of a record's `startTs`. -/
def startDay (r : Staker) : ℤ :=
  dayBucket r.startTs

/-- Day bucket of a record's `endTs`.  Only meaningful when `r.endTs ≠ 0`:
the source guards the end-day contribution with the truthiness test
`staker.endTs ? … : null`. -/
def endDay (r : Staker) : ℤ :=
  dayBucket r.endTs

/-- Signed staking-power contribution of one record to the delta of day
`d`: `+uiStakingPower` on its start day and, when `endTs` is truthy,
`-uiStakingPower` on its end day. -/
def recordDeltaSP (r : Staker) (d : ℤ) : ℚ :=
  (if startDay r = d then r.uiStakingPower else 0) +
    (if r.endTs ≠ 0 ∧ endDay r = d then -r.uiStakingPower else 0)

/-- Signed staked-amount contribution of one record to the delta of day
`d`. -/
def recordDeltaAmt (r : Staker) (d : ℤ) : ℚ :=
  (if startDay r = d then r.uiAmount else 0) +
    (if r.endTs ≠ 0 ∧ endDay r = d then -r.uiAmount else 0)

/-- Value of the `dailyAggregation` map at day `d` (staking-power
component); a day no record touched has the default value 0, exactly as
`dailyAggregation[day] || { deltaStakingPower: 0, deltaMeStaked: 0 }`
supplies it. -/
def deltaStakingPower (rs : List Staker) (d : ℤ) : ℚ :=
  (rs.map (fun r => recordDeltaSP r d)).sum

/-- Value of the `dailyAggregation` map at day `d` (staked-amount
component). -/
def deltaMeStaked (rs : List Staker) (d : ℤ) : ℚ :=
  (rs.map (fun r => recordDeltaAmt r d)).sum

/-- The day keys the `dailyAggregation` map receives: every record's start
day, and its end day when `endTs` is truthy (with multiplicity; only
membership and the minimum matter). -/
def eventDays (rs : List Staker) : List ℤ :=
  rs.flatMap fun r =>
    startDay r :: (if r.endTs = 0 then [] else [endDay r])

/-- Earliest key of the aggregation map (`daysFromData.sort()[0]`), `none`
when there are no keys at all. -/
def earliestDay (rs : List Staker) : Option ℤ :=
  match eventDays rs with
  | [] => none
  | d :: ds => some (ds.foldl min d)

/-- Earliest day bucket taken over the non-degenerate records only
(`endTs > startTs`).  Written from the specification's claim that
degenerate records are excluded from anchoring; used to compare that claim
with the aggregator's actual anchoring. -/
def earliestNonDegenerateDay (rs : List Staker) : Option ℤ :=
  earliestDay (rs.filter fun r => decide (r.startTs < r.endTs))

/-- The inclusive list of day buckets `lo, lo+1, …, hi` (empty when
`hi < lo`), as produced by the `while (day <= todayStr)` fill loop. -/
def dayRange (lo hi : ℤ) : List ℤ :=
  (List.range (hi + 1 - lo).toNat).map fun i : ℕ => lo + (i : ℤ)

/-- One emitted tuple of the cumulative series. -/
structure DayEntry where
  day : ℤ
  totalStakingPower : ℚ
  totalMeStaked : ℚ
deriving DecidableEq, Repr

/-- The cumulative walk over the gap-filled day list (step 4 of the
aggregator): running totals threaded through the date-ordered days. -/
def cumulFrom (rs : List Staker) : List ℤ → ℚ → ℚ → List DayEntry
  | [], _, _ => []
  | d :: ds, sp, amt =>
    ⟨d, sp + deltaStakingPower rs d, amt + deltaMeStaked rs d⟩ ::
      cumulFrom rs ds (sp + deltaStakingPower rs d) (amt + deltaMeStaked rs d)

/-- The whole aggregation pipeline of the delta-variant `App`, for a fixed
current day `today`: build the delta map, find the earliest observed
bucket (throwing the source's error when there is none), fill the day
range up to `today`, and accumulate.  The `throw` of the source is the
`Except.error` branch. -/
def aggregate (rs : List Staker) (today : ℤ) : Except String (List DayEntry) :=
  match earliestDay rs with
  | none => .error "No staker data available to determine date range."
  | some e => .ok (cumulFrom rs (dayRange e today) 0 0)

/-- Total staking power of records whose start day falls in `[lo, hi]`
(specification side of the round-trip claim). -/
def sumStartIn (rs : List Staker) (lo hi : ℤ) : ℚ :=
  (rs.map fun r =>
    if lo ≤ startDay r ∧ startDay r ≤ hi then r.uiStakingPower else 0).sum

/-- Total staking power of records whose (truthy) end day falls in
`[lo, hi]` (specification side of the round-trip claim). -/
def sumEndIn (rs : List Staker) (lo hi : ℤ) : ℚ :=
  (rs.map fun r =>
    if r.endTs ≠ 0 ∧ lo ≤ endDay r ∧ endDay r ≤ hi then r.uiStakingPower
    else 0).sum

/-- Total staking power of the lockups still active as of `today`: started
on or before `today` and either endless (`endTs` falsy) or ending on a
later day bucket. -/
def activeStakingPower (rs : List Staker) (today : ℤ) : ℚ :=
  (rs.map fun r =>
    if startDay r ≤ today ∧ (r.endTs = 0 ∨ today < endDay r) then
      r.uiStakingPower
    else 0).sum

/-! ## Snapshot fetcher (`fetchData` of the delta-variant `App`) -/

/-- The nested payload `result.result.data.json` as received, before the
required-field validation; `none` in a field models a missing (hence
JavaScript-falsy) property. -/
structure RawPayload where
  ts : String
  totalUIStaked : Option ℚ
  totalLockups : Option ℚ
  totalUIStakingPower : Option ℚ
  stakers : Option (List Staker)
deriving DecidableEq, Repr

/-- The bundled sample snapshot, embedded from `src/mockData.ts`. -/
def mockPayload : RawPayload :=
  { ts := "2024-03-20T15:30:00.000Z"
    totalUIStaked := some 13791417.12
    totalLockups := some 40812
    totalUIStakingPower := some 52270945.73
    stakers := some
      [{ wallet := "AaBbCcDdEeFfGgHhIiJjKkLlMmNnOoPpQqRrSsTtUu"
         uiStakingPower := 400
         uiAmount := 100
         startTs := 1710945600
         endTs := 1742481600
         duration := 31536000 },
       { wallet := "VvWwXxYyZz11223344556677889900AaBbCcDdEe"
         uiStakingPower := 20000.01
         uiAmount := 10000
         startTs := 1710945600
         endTs := 1726617600
         duration := 15672000 }] }

/-- JavaScript truthiness of an optional number: a missing field and the
number 0 are both falsy. -/
def truthyNum (o : Option ℚ) : Bool :=
  match o with
  | none => false
  | some q => decide (q ≠ 0)

/-- The required-field validation of `fetchData`:
`stakerData.stakers && stakerData.totalUIStakingPower &&
stakerData.totalUIStaked` under JavaScript truthiness (an array, even
empty, is truthy; a number is falsy exactly when it is 0). -/
def validFields (raw : RawPayload) : Bool :=
  raw.stakers.isSome && truthyNum raw.totalUIStakingPower &&
    truthyNum raw.totalUIStaked

/-- Outcome of one fetch attempt, covering every exit of the try block. -/
inductive FetchOutcome where
  | netError (msg : String)
  | httpError (status : ℕ)
  | badStructure
  | payload (raw : RawPayload)
deriving DecidableEq, Repr

/-- The component state `fetchData` leaves behind: the current snapshot
slot, the error message and the sample-data flag. -/
structure DisplayState where
  data : Option RawPayload
  error : Option String
  usingMockData : Bool
deriving DecidableEq, Repr

/-- State produced by the catch branch of `fetchData`: the error message is
recorded, the snapshot slot is replaced wholesale by the bundled sample
data and the sample-data flag is raised. -/
def fallbackState (msg : String) : DisplayState :=
  { data := some mockPayload, error := some msg, usingMockData := true }

/-- One completed `fetchData` tick as a pure function of what the fetch
produced.  Every failure path reaches the same catch block; a payload that
fails the required-field validation throws into that block too. -/
def fetchStep : FetchOutcome → DisplayState
  | .netError msg => fallbackState msg
  | .httpError status => fallbackState ("HTTP error! status: " ++ toString status)
  | .badStructure => fallbackState "Invalid data structure received from API"
  | .payload raw =>
    if validFields raw then { data := some raw, error := none, usingMockData := false }
    else fallbackState "Missing required fields in API response"

/-- What `App` renders once loading has finished. -/
inductive RenderView where
  | errorPanel (msg : String)
  | dashboard (snap : RawPayload) (sampleNotice : Bool)
deriving DecidableEq, Repr

/-- The post-loading render dispatch of `App`: the early return
`if (error || !data)` yields the error panel, otherwise the dashboard is
shown with the sample-data notice iff `usingMockData` is set. -/
def render (st : DisplayState) : RenderView :=
  match st.error, st.data with
  | some msg, _ => .errorPanel msg
  | none, none => .errorPanel "Failed to load staker data"
  | none, some snap => .dashboard snap st.usingMockData

/-! ## General list-sum lemmas -/

lemma sum_map_add {α : Type} (l : List α) (f g : α → ℚ) :
    (l.map fun a => f a + g a).sum = (l.map f).sum + (l.map g).sum := by
  induction l with
  | nil => simp
  | cons a l ih => simp only [List.map_cons, List.sum_cons, ih]; ring

lemma sum_map_sub {α : Type} (l : List α) (f g : α → ℚ) :
    (l.map fun a => f a - g a).sum = (l.map f).sum - (l.map g).sum := by
  induction l with
  | nil => simp
  | cons a l ih => simp only [List.map_cons, List.sum_cons, ih]; ring

lemma sum_if_eq (l : List ℤ) (hl : l.Nodup) (x : ℤ) (c : ℚ) :
    (l.map fun d => if x = d then c else 0).sum = if x ∈ l then c else 0 := by
  induction l with
  | nil => simp
  | cons a l ih =>
    rcases List.nodup_cons.mp hl with ⟨ha, hl2⟩
    by_cases hx : x = a
    · subst hx
      simp [ha, ih hl2]
    · simp [hx, ih hl2, Ne.symm hx]

lemma sum_sum_comm {α : Type} (days : List ℤ) (rs : List α) (f : α → ℤ → ℚ) :
    (days.map fun d => (rs.map fun r => f r d).sum).sum
      = (rs.map fun r => (days.map fun d => f r d).sum).sum := by
  induction rs with
  | nil => simp
  | cons r rs ih =>
    simp only [List.map_cons, List.sum_cons]
    rw [← ih, ← sum_map_add]

/-! ## Day-range structure -/

lemma mem_dayRange {lo hi d : ℤ} : d ∈ dayRange lo hi ↔ lo ≤ d ∧ d ≤ hi := by
  unfold dayRange
  rw [List.mem_map]
  constructor
  · rintro ⟨i, hil, rfl⟩
    rw [List.mem_range] at hil
    omega
  · intro h
    refine ⟨(d - lo).toNat, ?_, ?_⟩
    · rw [List.mem_range]; omega
    · omega

lemma dayRange_nodup (lo hi : ℤ) : (dayRange lo hi).Nodup := by
  unfold dayRange
  refine List.Nodup.map ?_ (List.nodup_range _)
  intro a b h
  have h2 : lo + (a : ℤ) = lo + (b : ℤ) := h
  omega

lemma dayRange_chain (lo hi : ℤ) :
    List.Chain' (fun a b : ℤ => b = a + 1) (dayRange lo hi) := by
  rw [List.chain'_iff_get]
  intro i h
  simp only [dayRange, List.get_eq_getElem, List.getElem_map, List.getElem_range]
  omega

lemma dayRange_length (lo hi : ℤ) :
    (dayRange lo hi).length = (hi + 1 - lo).toNat := by
  unfold dayRange
  rw [List.length_map, List.length_range]

lemma dayRange_ne_nil {lo hi : ℤ} (h : lo ≤ hi) : dayRange lo hi ≠ [] := by
  intro hc
  have : lo ∈ dayRange lo hi := mem_dayRange.mpr ⟨le_refl lo, h⟩
  rw [hc] at this
  exact absurd this (List.not_mem_nil lo)

/-! ## Fold-min and the earliest observed bucket -/

lemma foldl_min_le_self (d : ℤ) (ds : List ℤ) : ds.foldl min d ≤ d := by
  induction ds generalizing d with
  | nil => simp
  | cons a ds ih => exact le_trans (ih (min d a)) (min_le_left d a)

lemma foldl_min_le_mem (d : ℤ) (ds : List ℤ) : ∀ x ∈ ds, ds.foldl min d ≤ x := by
  induction ds generalizing d with
  | nil => simp
  | cons a ds ih =>
    intro x hx
    rcases List.mem_cons.mp hx with rfl | hx2
    · exact le_trans (foldl_min_le_self (min d x) ds) (min_le_right d x)
    · exact ih (min d a) x hx2

lemma foldl_min_mem (d : ℤ) (ds : List ℤ) :
    ds.foldl min d = d ∨ ds.foldl min d ∈ ds := by
  induction ds generalizing d with
  | nil => left; rfl
  | cons a ds ih =>
    rw [List.foldl_cons]
    rcases ih (min d a) with h | h
    · rcases min_choice d a with h2 | h2
      · left; rw [h, h2]
      · right; rw [h, h2]; exact List.mem_cons_self a ds
    · right; exact List.mem_cons_of_mem a h

lemma earliestDay_nil_eq {rs : List Staker} (h : eventDays rs = []) :
    earliestDay rs = none := by
  unfold earliestDay
  rw [h]

lemma earliestDay_cons_eq (d : ℤ) (ds : List ℤ) (rs : List Staker)
    (h : eventDays rs = d :: ds) : earliestDay rs = some (ds.foldl min d) := by
  unfold earliestDay
  rw [h]

lemma eventDays_eq_nil_iff (rs : List Staker) : eventDays rs = [] ↔ rs = [] := by
  cases rs with
  | nil => simp [eventDays]
  | cons r rs => simp [eventDays]

lemma startDay_mem_eventDays {rs : List Staker} {r : Staker} (hr : r ∈ rs) :
    startDay r ∈ eventDays rs := by
  unfold eventDays
  exact List.mem_flatMap.mpr ⟨r, hr, List.mem_cons_self _ _⟩

lemma endDay_mem_eventDays {rs : List Staker} {r : Staker} (hr : r ∈ rs)
    (h : r.endTs ≠ 0) : endDay r ∈ eventDays rs := by
  unfold eventDays
  refine List.mem_flatMap.mpr ⟨r, hr, ?_⟩
  simp [h]

lemma eventDays_mem_elim {rs : List Staker} {x : ℤ} (hx : x ∈ eventDays rs) :
    ∃ r ∈ rs, x = startDay r ∨ (r.endTs ≠ 0 ∧ x = endDay r) := by
  unfold eventDays at hx
  obtain ⟨r, hr, hx⟩ := List.mem_flatMap.mp hx
  refine ⟨r, hr, ?_⟩
  rcases List.mem_cons.mp hx with rfl | hx2
  · exact Or.inl rfl
  · by_cases h0 : r.endTs = 0
    · simp [h0] at hx2
    · simp only [h0, if_false, List.mem_singleton] at hx2
      exact Or.inr ⟨h0, hx2⟩

lemma earliestDay_isSome {rs : List Staker} (h : rs ≠ []) :
    ∃ e, earliestDay rs = some e := by
  cases hev : eventDays rs with
  | nil => exact absurd ((eventDays_eq_nil_iff rs).mp hev) h
  | cons d ds => exact ⟨_, earliestDay_cons_eq d ds rs hev⟩

lemma eventDays_cons_of_some {rs : List Staker} {e : ℤ}
    (he : earliestDay rs = some e) : ∃ d ds, eventDays rs = d :: ds := by
  cases hev : eventDays rs with
  | nil => rw [earliestDay_nil_eq hev] at he; cases he
  | cons d ds => exact ⟨d, ds, rfl⟩

lemma earliestDay_mem {rs : List Staker} {e : ℤ} (he : earliestDay rs = some e) :
    e ∈ eventDays rs := by
  obtain ⟨d, ds, hev⟩ := eventDays_cons_of_some he
  rw [earliestDay_cons_eq d ds rs hev] at he
  obtain rfl := Option.some.inj he
  rw [hev]
  rcases foldl_min_mem d ds with h | h
  · rw [h]; exact List.mem_cons_self d ds
  · exact List.mem_cons_of_mem d h

lemma earliestDay_le {rs : List Staker} {e : ℤ} (he : earliestDay rs = some e) :
    ∀ x ∈ eventDays rs, e ≤ x := by
  intro x hx
  obtain ⟨d, ds, hev⟩ := eventDays_cons_of_some he
  rw [earliestDay_cons_eq d ds rs hev] at he
  obtain rfl := Option.some.inj he
  rw [hev] at hx
  rcases List.mem_cons.mp hx with rfl | hx2
  · exact foldl_min_le_self _ _
  · exact foldl_min_le_mem _ _ _ hx2

/-! ## The cumulative walk -/

lemma cumulFrom_map_day (rs : List Staker) (ds : List ℤ) :
    ∀ sp amt, (cumulFrom rs ds sp amt).map DayEntry.day = ds := by
  induction ds with
  | nil => intro sp amt; rfl
  | cons d ds ih => intro sp amt; simp [cumulFrom, ih]

lemma cumulFrom_getLast_sp (rs : List Staker) (ds : List ℤ) :
    ∀ (sp amt : ℚ), ds ≠ [] →
      ((cumulFrom rs ds sp amt).getLast?).map DayEntry.totalStakingPower
        = some (sp + (ds.map fun d => deltaStakingPower rs d).sum) := by
  induction ds with
  | nil => intro sp amt h; exact absurd rfl h
  | cons d ds ih =>
    intro sp amt _
    cases ds with
    | nil => simp [cumulFrom]
    | cons d2 ds2 =>
      have h2 : cumulFrom rs (d :: d2 :: ds2) sp amt
          = ⟨d, sp + deltaStakingPower rs d, amt + deltaMeStaked rs d⟩ ::
            cumulFrom rs (d2 :: ds2) (sp + deltaStakingPower rs d)
              (amt + deltaMeStaked rs d) := rfl
      obtain ⟨x, t, h3⟩ : ∃ x t, cumulFrom rs (d2 :: ds2)
          (sp + deltaStakingPower rs d) (amt + deltaMeStaked rs d) = x :: t :=
        ⟨_, _, rfl⟩
      rw [h2, h3, List.getLast?_cons_cons, ← h3,
        ih (sp + deltaStakingPower rs d) (amt + deltaMeStaked rs d) (by simp)]
      congr 1
      simp only [List.map_cons, List.sum_cons]
      ring

/-! ## Deltas summed over the output range -/

lemma record_delta_sum (r : Staker) (lo hi : ℤ) :
    ((dayRange lo hi).map fun d => recordDeltaSP r d).sum
      = (if lo ≤ startDay r ∧ startDay r ≤ hi then r.uiStakingPower else 0)
        - (if r.endTs ≠ 0 ∧ lo ≤ endDay r ∧ endDay r ≤ hi then r.uiStakingPower
           else 0) := by
  unfold recordDeltaSP
  rw [sum_map_add]
  have h1 : ((dayRange lo hi).map fun d =>
        if startDay r = d then r.uiStakingPower else 0).sum
      = if startDay r ∈ dayRange lo hi then r.uiStakingPower else 0 :=
    sum_if_eq _ (dayRange_nodup lo hi) _ _
  by_cases h0 : r.endTs = 0
  · rw [h1]
    simp [mem_dayRange, h0]
  · have h2 : ((dayRange lo hi).map fun d =>
          if r.endTs ≠ 0 ∧ endDay r = d then -r.uiStakingPower else 0).sum
        = if endDay r ∈ dayRange lo hi then -r.uiStakingPower else 0 := by
      have hfun : (fun d => if r.endTs ≠ 0 ∧ endDay r = d then -r.uiStakingPower
            else 0)
          = fun d => if endDay r = d then -r.uiStakingPower else 0 := by
        funext d
        simp [h0]
      rw [hfun]
      exact sum_if_eq _ (dayRange_nodup lo hi) _ _
    rw [h1, h2]
    simp only [mem_dayRange, h0, ne_eq, not_false_eq_true, true_and]
    split_ifs <;> ring

lemma sum_deltas_eq (rs : List Staker) (lo hi : ℤ) :
    ((dayRange lo hi).map fun d => deltaStakingPower rs d).sum
      = sumStartIn rs lo hi - sumEndIn rs lo hi := by
  unfold deltaStakingPower sumStartIn sumEndIn
  rw [sum_sum_comm]
  simp only [record_delta_sum]
  exact sum_map_sub _ _ _

lemma active_point_eq (today e ts sd ed : ℤ) (p : ℚ) (h1 : e ≤ sd)
    (h2 : ts ≠ 0 → e ≤ ed ∧ sd ≤ ed) :
    (if e ≤ sd ∧ sd ≤ today then p else 0)
      - (if ts ≠ 0 ∧ e ≤ ed ∧ ed ≤ today then p else 0)
      = if sd ≤ today ∧ (ts = 0 ∨ today < ed) then p else 0 := by
  by_cases h0 : ts = 0
  · split_ifs <;> first | ring1 | (exfalso; omega)
  · obtain ⟨h3, h4⟩ := h2 h0
    split_ifs <;> first | ring1 | (exfalso; omega)

lemma sub_sums_eq_active (today e : ℤ) :
    ∀ rs : List Staker, (∀ r ∈ rs, e ≤ startDay r) →
      (∀ r ∈ rs, r.endTs ≠ 0 → e ≤ endDay r ∧ startDay r ≤ endDay r) →
      sumStartIn rs e today - sumEndIn rs e today
        = activeStakingPower rs today := by
  intro rs
  induction rs with
  | nil =>
    intro _ _
    simp [sumStartIn, sumEndIn, activeStakingPower]
  | cons r rs ih =>
    intro hs he
    have hr1 := hs r (List.mem_cons_self r rs)
    have hrec := ih (fun x h => hs x (List.mem_cons_of_mem r h))
      (fun x h => he x (List.mem_cons_of_mem r h))
    unfold sumStartIn sumEndIn activeStakingPower at hrec ⊢
    simp only [List.map_cons, List.sum_cons]
    have hpt := active_point_eq today e r.endTs (startDay r) (endDay r)
      r.uiStakingPower hr1 (he r (List.mem_cons_self r rs))
    linarith [hrec, hpt]

/-! ## Percentile-threshold helpers -/

lemma insertDesc_length (s : Staker) (l : List Staker) :
    (insertDesc s l).length = l.length + 1 := by
  induction l with
  | nil => rfl
  | cons t ts ih =>
    unfold insertDesc
    split_ifs <;> simp [ih]

lemma sortDesc_length (l : List Staker) : (sortDesc l).length = l.length := by
  unfold sortDesc
  induction l with
  | nil => rfl
  | cons a l ih => simp [List.foldr_cons, insertDesc_length, ih]

/-! ## Voting-power core on the duration axis -/

/-- The duration-indexed core of `calcVotingPower` once the expiry and
degeneracy guards have passed. -/
def vpCore (amt mn mx pct d : ℚ) : ℚ :=
  if d ≤ mn then amt
  else if d ≥ mx then amt * pct / 100
  else if mx - mn ≤ 0 then 0
  else amt + (amt * pct / 100 - amt) * (d - mn) / (mx - mn)

lemma calc_eq_vpCore (amt s e mn mx pct now : ℚ) (hnow : now ≤ e)
    (hse : s < e) :
    calcVotingPower amt s e mn mx pct now = vpCore amt mn mx pct (e - s) := by
  unfold calcVotingPower vpCore
  rw [if_neg (by linarith : ¬ now > e), if_neg (by linarith : ¬ e ≤ s)]

lemma vpCore_le_of_le (amt mn mx pct d1 d2 : ℚ) (hr : mn < mx)
    (hMP : amt ≤ amt * pct / 100) (h12 : d1 ≤ d2) :
    vpCore amt mn mx pct d1 ≤ vpCore amt mn mx pct d2 := by
  have hR : (0:ℚ) < mx - mn := by linarith
  unfold vpCore
  split_ifs
  all_goals try linarith
  · have h := div_nonneg
      (mul_nonneg (sub_nonneg.mpr hMP) (by linarith : (0:ℚ) ≤ d2 - mn)) hR.le
    linarith
  · have key := (div_le_div_right hR).mpr
      (mul_le_mul_of_nonneg_left (show d1 - mn ≤ mx - mn by linarith)
        (sub_nonneg.mpr hMP))
    rw [mul_div_cancel_right₀ _ (ne_of_gt hR)] at key
    linarith
  · have key := (div_le_div_right hR).mpr
      (mul_le_mul_of_nonneg_left (show d1 - mn ≤ d2 - mn by linarith)
        (sub_nonneg.mpr hMP))
    linarith

lemma vpCore_ge_of_le (amt mn mx pct d1 d2 : ℚ) (hr : mn < mx)
    (hPM : amt * pct / 100 ≤ amt) (h12 : d1 ≤ d2) :
    vpCore amt mn mx pct d2 ≤ vpCore amt mn mx pct d1 := by
  have hR : (0:ℚ) < mx - mn := by linarith
  unfold vpCore
  split_ifs
  all_goals try linarith
  · have key := (div_le_div_right hR).mpr
      (mul_le_mul_of_nonpos_left (show d1 - mn ≤ mx - mn by linarith)
        (sub_nonpos.mpr hPM))
    rw [mul_div_cancel_right₀ _ (ne_of_gt hR)] at key
    linarith
  · have h := div_nonpos_of_nonpos_of_nonneg
      (mul_nonpos_of_nonpos_of_nonneg (sub_nonpos.mpr hPM)
        (by linarith : (0:ℚ) ≤ d2 - mn)) hR.le
    linarith
  · have key := (div_le_div_right hR).mpr
      (mul_le_mul_of_nonpos_left (show d1 - mn ≤ d2 - mn by linarith)
        (sub_nonpos.mpr hPM))
    linarith

/-! ## Concrete records used by witnesses and counterexamples -/

/-- Two-element record list with distinct powers, for the percentile
boundary instance. -/
def c5s1 : Staker :=
  { wallet := "s1", uiStakingPower := 7, uiAmount := 1, startTs := 0,
    endTs := 0, duration := 0 }

/-- Second record of the two-element percentile instance. -/
def c5s2 : Staker :=
  { wallet := "s2", uiStakingPower := 3, uiAmount := 1, startTs := 0,
    endTs := 0, duration := 0 }

/-! ## Claim C1 -/

/-- C1: `calcVotingPower` equals the piecewise reference definition — 0 when
`now > endTs` or `endTs ≤ startTs`, `amount` when `duration ≤ minDuration`,
`maxPower` when `duration ≥ maxSaturationDuration`, and the linear
interpolation otherwise; in particular, for amount 100, minDuration 0,
maxSaturationDuration 31536000, targetVotingPct 400 and duration 15768000
with `now < endTs`, it returns 250. -/
theorem c1_calc_voting_power_piecewise :
    (∀ amt s e mn mx pct now : ℚ,
        calcVotingPower amt s e mn mx pct now
          = votingPowerSpec amt s e mn mx pct now)
    ∧ calcVotingPower 100 0 15768000 0 31536000 400 0 = 250 := by
  constructor
  · intro amt s e mn mx pct now
    unfold calcVotingPower votingPowerSpec
    by_cases h1 : now > e
    · simp [h1]
    by_cases h2 : e ≤ s
    · simp [h1, h2]
    by_cases h3 : e - s ≤ mn
    · simp [h1, h2, h3]
    by_cases h4 : e - s ≥ mx
    · simp [h1, h2, h3, h4]
    have h5 : ¬ (mx - mn ≤ 0) := by
      push_neg at h3 h4
      linarith
    simp [h1, h2, h3, h4, h5]
  · norm_num [calcVotingPower]

/-! ## Claim C2 -/

/-- C2 counterexample: with amount 100, startTs 0, endTs 10, minDuration 20,
maxSaturationDuration 5 and now 0 the window is neither expired nor
degenerate and the range is misconfigured (`maxSaturationDuration ≤
minDuration`), yet `calcVotingPower` returns 100, not 0: the clamping
guards run before the misconfiguration guard, which is unreachable. -/
theorem c2_counterexample :
    (0:ℚ) ≤ 10 ∧ (0:ℚ) < 10 ∧ (5:ℚ) ≤ 20 ∧
      calcVotingPower 100 0 10 20 5 400 0 = 100 ∧ (100:ℚ) ≠ 0 := by
  norm_num [calcVotingPower]

/-- C2 (amended): for a non-expired, non-degenerate input with
`maxSaturationDuration ≤ minDuration`, `calcVotingPower` returns `amount`
when `duration ≤ minDuration` and `maxPower` otherwise; the zero-returning
misconfiguration branch is unreachable. -/
theorem c2_amended_misconfig (amt s e mn mx pct now : ℚ)
    (hnow : now ≤ e) (hse : s < e) (hcfg : mx ≤ mn) :
    calcVotingPower amt s e mn mx pct now
      = if e - s ≤ mn then amt else amt * pct / 100 := by
  unfold calcVotingPower
  rw [if_neg (by linarith : ¬ now > e), if_neg (by linarith : ¬ e ≤ s)]
  by_cases h3 : e - s ≤ mn
  · simp [h3]
  · have h4 : e - s ≥ mx := by
      push_neg at h3
      linarith
    simp [h3, h4]

/-- Witness for the amended C2 at a concrete misconfigured input. -/
theorem c2_witness :
    (0:ℚ) ≤ 10 ∧ (0:ℚ) < 10 ∧ (5:ℚ) ≤ 20 ∧
      calcVotingPower 100 0 10 20 5 400 0
        = if (10:ℚ) - 0 ≤ 20 then (100:ℚ) else 100 * 400 / 100 :=
  ⟨by norm_num, by norm_num, by norm_num,
    c2_amended_misconfig 100 0 10 20 5 400 0 (by norm_num) (by norm_num)
      (by norm_num)⟩

/-! ## Claim C5 -/

lemma thresholdOrZero_lt (l : List Staker) (i : ℕ) (h : i < l.length) :
    thresholdOrZero l i = (l.get ⟨i, h⟩).uiStakingPower := by
  unfold thresholdOrZero
  rw [List.getElem?_eq_getElem h]
  simp only [List.get_eq_getElem]
  split_ifs with h0
  · rw [h0]
  · rfl

lemma thresholdOrZero_oob (l : List Staker) (i : ℕ) (h : l.length ≤ i) :
    thresholdOrZero l i = 0 := by
  unfold thresholdOrZero
  rw [List.getElem?_eq_none h]

/-- C5: `getPercentileThresholds` returns the staking power found at index
`floor(n * 0.01)` (respectively `floor(n * 0.10)`) of the descending-sorted
copy, 0 when the index is out of bounds, and for a two-element list `top1`
is the larger of the two powers. -/
theorem c5_percentile_thresholds (stakers : List Staker) :
    (∀ h : stakers.length / 100 < (sortDesc stakers).length,
        (getPercentileThresholds stakers).top1
          = ((sortDesc stakers).get ⟨stakers.length / 100, h⟩).uiStakingPower)
    ∧ ((sortDesc stakers).length ≤ stakers.length / 100 →
        (getPercentileThresholds stakers).top1 = 0)
    ∧ (∀ h : stakers.length / 10 < (sortDesc stakers).length,
        (getPercentileThresholds stakers).top10
          = ((sortDesc stakers).get ⟨stakers.length / 10, h⟩).uiStakingPower)
    ∧ ((sortDesc stakers).length ≤ stakers.length / 10 →
        (getPercentileThresholds stakers).top10 = 0)
    ∧ (∀ s1 s2 : Staker, stakers = [s1, s2] →
        (getPercentileThresholds stakers).top1
          = max s1.uiStakingPower s2.uiStakingPower) := by
  refine ⟨?_, ?_, ?_, ?_, ?_⟩
  · intro h
    exact thresholdOrZero_lt _ _ h
  · intro h
    exact thresholdOrZero_oob _ _ h
  · intro h
    exact thresholdOrZero_lt _ _ h
  · intro h
    exact thresholdOrZero_oob _ _ h
  · intro s1 s2 hs
    subst hs
    have h2 : insertDesc s1 [s2]
        = if s2.uiStakingPower < s1.uiStakingPower then [s1, s2]
          else [s2, s1] := by
      unfold insertDesc
      split_ifs <;> rfl
    have hsort : sortDesc [s1, s2] = insertDesc s1 [s2] := rfl
    show thresholdOrZero (sortDesc [s1, s2]) (([s1, s2] : List Staker).length / 100)
        = max s1.uiStakingPower s2.uiStakingPower
    rcases lt_or_le s2.uiStakingPower s1.uiStakingPower with h | h
    · rw [hsort, h2, if_pos h]
      unfold thresholdOrZero
      simp only [List.length_cons, List.length_nil]
      norm_num
      split_ifs with h0
      · rw [h0] at h ⊢
        rw [max_eq_left h.le]
      · rw [max_eq_left h.le]
    · rw [hsort, h2, if_neg (not_lt.mpr h)]
      unfold thresholdOrZero
      simp only [List.length_cons, List.length_nil]
      norm_num
      split_ifs with h0
      · rw [h0] at h ⊢
        rw [max_eq_right h]
      · rw [max_eq_right h]

/-- Witness for C5 at the two-element list: `top1` is the larger power. -/
theorem c5_witness :
    (getPercentileThresholds [c5s1, c5s2]).top1
      = max c5s1.uiStakingPower c5s2.uiStakingPower :=
  (c5_percentile_thresholds [c5s1, c5s2]).2.2.2.2 c5s1 c5s2 rfl

/-! ## Claim C8 -/

/-- C8 counterexample: with a negative amount (−100) and
`targetVotingPct = 400 ≥ 100`, a longer duration yields a strictly smaller
voting power (−250 at duration 50 versus −400 at duration 100), so the
claimed monotonicity fails without a nonnegativity assumption on the
amount. -/
theorem c8_counterexample :
    (0:ℚ) < 100 - 0 ∧ (0:ℚ) ≤ 50 ∧ (50:ℚ) ≤ 100 ∧ (0:ℚ) < 50 ∧
      (100:ℚ) ≤ 400 ∧
      calcVotingPower (-100) 0 50 0 100 400 0 = -250 ∧
      calcVotingPower (-100) 0 100 0 100 400 0 = -400 ∧
      ¬ ((-250 : ℚ) ≤ (-400 : ℚ)) := by
  norm_num [calcVotingPower]

/-- C8 (amended): with amount additionally nonnegative and
`minDuration < maxSaturationDuration`, on valid windows `calcVotingPower`
is non-decreasing in duration when `targetVotingPct ≥ 100` and
non-increasing when `targetVotingPct < 100`, equals `amount` at
`duration = minDuration` and equals `maxPower` at
`duration = maxSaturationDuration`. -/
theorem c8_monotone_amended (amt s e1 e2 mn mx pct now : ℚ)
    (hamt : 0 ≤ amt) (hr : mn < mx) (hnow : now ≤ e1) (h12 : e1 ≤ e2)
    (hse : s < e1) :
    (100 ≤ pct →
        calcVotingPower amt s e1 mn mx pct now
          ≤ calcVotingPower amt s e2 mn mx pct now)
    ∧ (pct < 100 →
        calcVotingPower amt s e2 mn mx pct now
          ≤ calcVotingPower amt s e1 mn mx pct now)
    ∧ (e1 - s = mn → calcVotingPower amt s e1 mn mx pct now = amt)
    ∧ (e1 - s = mx →
        calcVotingPower amt s e1 mn mx pct now = amt * pct / 100) := by
  have hnow2 : now ≤ e2 := le_trans hnow h12
  have hse2 : s < e2 := lt_of_lt_of_le hse h12
  have hc1 := calc_eq_vpCore amt s e1 mn mx pct now hnow hse
  have hc2 := calc_eq_vpCore amt s e2 mn mx pct now hnow2 hse2
  refine ⟨?_, ?_, ?_, ?_⟩
  · intro hp
    have hMP : amt ≤ amt * pct / 100 := by
      rw [le_div_iff (by norm_num : (0:ℚ) < 100)]
      exact mul_le_mul_of_nonneg_left hp hamt
    rw [hc1, hc2]
    exact vpCore_le_of_le amt mn mx pct (e1 - s) (e2 - s) hr hMP
      (by linarith)
  · intro hp
    have hPM : amt * pct / 100 ≤ amt := by
      rw [div_le_iff (by norm_num : (0:ℚ) < 100)]
      exact mul_le_mul_of_nonneg_left (le_of_lt hp) hamt
    rw [hc1, hc2]
    exact vpCore_ge_of_le amt mn mx pct (e1 - s) (e2 - s) hr hPM
      (by linarith)
  · intro hd
    rw [hc1]
    unfold vpCore
    rw [if_pos (le_of_eq hd)]
  · intro hd
    rw [hc1]
    unfold vpCore
    rw [if_neg (by rw [hd]; exact not_le.mpr hr), if_pos (ge_of_eq hd)]

/-- Witness for the amended C8 at the specification's own example curve. -/
theorem c8_witness :
    (0:ℚ) ≤ 100 ∧ (0:ℚ) < 31536000 ∧ (0:ℚ) ≤ 15768000 ∧
      (15768000:ℚ) ≤ 31536000 ∧ (0:ℚ) < 15768000 ∧
      (((100:ℚ) ≤ 400 →
          calcVotingPower 100 0 15768000 0 31536000 400 0
            ≤ calcVotingPower 100 0 31536000 0 31536000 400 0)
        ∧ ((400:ℚ) < 100 →
          calcVotingPower 100 0 31536000 0 31536000 400 0
            ≤ calcVotingPower 100 0 15768000 0 31536000 400 0)
        ∧ ((15768000:ℚ) - 0 = 0 →
          calcVotingPower 100 0 15768000 0 31536000 400 0 = 100)
        ∧ ((15768000:ℚ) - 0 = 31536000 →
          calcVotingPower 100 0 15768000 0 31536000 400 0
            = 100 * 400 / 100)) :=
  ⟨by norm_num, by norm_num, by norm_num, by norm_num, by norm_num,
    c8_monotone_amended 100 0 15768000 31536000 0 31536000 400 0
      (by norm_num) (by norm_num) (by norm_num) (by norm_num) (by norm_num)⟩

/-! ## Claim C4 -/

/-- First record of the gap-filling instance: start bucket 0, end bucket
100. -/
def c4r1 : Staker :=
  { wallet := "a", uiStakingPower := 1, uiAmount := 1, startTs := 0,
    endTs := 8640000, duration := 8640000 }

/-- Second record of the gap-filling instance: start bucket 10 (ten days
after the first), end bucket 100. -/
def c4r2 : Staker :=
  { wallet := "b", uiStakingPower := 2, uiAmount := 2, startTs := 864000,
    endTs := 8640000, duration := 7776000 }

/-- Two records whose start days are 10 days apart (day buckets 0 and 10),
both ending on day bucket 100, used for the gap-filling instance with the
current day equal to the later start day. -/
def c4Demo : List Staker :=
  [c4r1, c4r2]

/-- C4: for every non-empty record list the aggregator emits exactly one
entry per calendar day from the earliest observed bucket through the
current day inclusive, in date order, with no gaps and no duplicates; in
particular the two-record instance with start days 10 days apart yields 11
consecutive day entries of which only 2 carry a nonzero delta. -/
theorem c4_gap_filling (rs : List Staker) (today : ℤ) (hne : rs ≠ []) :
    (∃ e out, earliestDay rs = some e ∧ aggregate rs today = Except.ok out ∧
      out.map DayEntry.day = dayRange e today ∧
      (∀ d : ℤ, d ∈ out.map DayEntry.day ↔ e ≤ d ∧ d ≤ today) ∧
      (out.map DayEntry.day).Nodup ∧
      List.Chain' (fun a b : ℤ => b = a + 1) (out.map DayEntry.day) ∧
      (e ≤ today → (out.map DayEntry.day).length = (today + 1 - e).toNat))
    ∧ (aggregate c4Demo 10).toOption.map (fun l => l.map DayEntry.day)
        = some (dayRange 0 10)
    ∧ (dayRange (0:ℤ) 10).length = 11
    ∧ ((dayRange (0:ℤ) 10).filter
        (fun d => decide (deltaStakingPower c4Demo d ≠ 0))).length = 2 := by
  have hs1 : startDay c4r1 = 0 := by decide
  have hs2 : startDay c4r2 = 10 := by decide
  have he1 : endDay c4r1 = 100 := by decide
  have he2 : endDay c4r2 = 100 := by decide
  have hz1 : c4r1.endTs ≠ 0 := by decide
  have hz2 : c4r2.endTs ≠ 0 := by decide
  have hp1 : c4r1.uiStakingPower = 1 := rfl
  have hp2 : c4r2.uiStakingPower = 2 := rfl
  refine ⟨?_, by decide, by decide, ?_⟩
  case refine_2 =>
    rw [show dayRange (0:ℤ) 10 = [0, 1, 2, 3, 4, 5, 6, 7, 8, 9, 10] from
      by decide]
    norm_num [List.filter, c4Demo, deltaStakingPower, recordDeltaSP,
      hs1, hs2, he1, he2, hz1, hz2, hp1, hp2]
  obtain ⟨e, he⟩ := earliestDay_isSome hne
  refine ⟨e, cumulFrom rs (dayRange e today) 0 0, he, ?_, ?_, ?_, ?_, ?_, ?_⟩
  · unfold aggregate
    rw [he]
  · exact cumulFrom_map_day rs _ 0 0
  · intro d
    rw [cumulFrom_map_day rs _ 0 0]
    exact mem_dayRange
  · rw [cumulFrom_map_day rs _ 0 0]
    exact dayRange_nodup e today
  · rw [cumulFrom_map_day rs _ 0 0]
    exact dayRange_chain e today
  · intro _
    rw [cumulFrom_map_day rs _ 0 0, dayRange_length]

/-- Witness for C4 at the two-record instance. -/
theorem c4_witness :
    c4Demo ≠ [] ∧
      (∃ e out, earliestDay c4Demo = some e ∧
        aggregate c4Demo 10 = Except.ok out ∧
        out.map DayEntry.day = dayRange e 10 ∧
        (∀ d : ℤ, d ∈ out.map DayEntry.day ↔ e ≤ d ∧ d ≤ 10) ∧
        (out.map DayEntry.day).Nodup ∧
        List.Chain' (fun a b : ℤ => b = a + 1) (out.map DayEntry.day) ∧
        (e ≤ 10 → (out.map DayEntry.day).length = (10 + 1 - e).toNat)) :=
  ⟨by simp [c4Demo], (c4_gap_filling c4Demo 10 (by simp [c4Demo])).1⟩

/-! ## Claim C3 -/

/-- A record whose end bucket (day 5) precedes its start bucket (day 20):
the aggregator range then begins at the end day and the final cumulative
value is negative while nothing is active. -/
def c3Rec : Staker :=
  { wallet := "w", uiStakingPower := 400, uiAmount := 100,
    startTs := 1728000, endTs := 432000, duration := 0 }

/-- A well-formed record spanning day buckets 10 to 20, used as the
round-trip witness input. -/
def c9Good : Staker :=
  { wallet := "good", uiStakingPower := 400, uiAmount := 100,
    startTs := 864000, endTs := 1728000, duration := 864000 }

/-- C3 counterexample: for the single degenerate record whose end day
(bucket 5) precedes its start day (bucket 20) and current day 10, the final
cumulative staking power of the emitted series is −400 while the total
staking power of lockups active as of day 10 is 0, so the claimed
round-trip equality fails as stated. -/
theorem c3_counterexample :
    ([c3Rec] : List Staker) ≠ [] ∧
      ((aggregate [c3Rec] 10).toOption.bind List.getLast?).map
          DayEntry.totalStakingPower = some (-400) ∧
      activeStakingPower [c3Rec] 10 = 0 ∧ ((-400 : ℚ) ≠ 0) := by
  have hsd : startDay c3Rec = 20 := by decide
  have hed : endDay c3Rec = 5 := by decide
  have hz : c3Rec.endTs ≠ 0 := by decide
  have hp : c3Rec.uiStakingPower = 400 := rfl
  have ha : c3Rec.uiAmount = 100 := rfl
  refine ⟨by simp, ?_, ?_, by norm_num⟩
  · have hagg : aggregate [c3Rec] 10
        = Except.ok (cumulFrom [c3Rec] [5, 6, 7, 8, 9, 10] 0 0) := by
      unfold aggregate
      rw [show earliestDay [c3Rec] = some 5 from by decide]
      change Except.ok (cumulFrom [c3Rec] (dayRange 5 10) 0 0) = _
      rw [show dayRange 5 10 = [5, 6, 7, 8, 9, 10] from by decide]
    rw [hagg]
    norm_num [cumulFrom, deltaStakingPower, deltaMeStaked, recordDeltaSP,
      recordDeltaAmt, hsd, hed, hz, hp, ha, Except.toOption, Option.bind,
      List.getLast?]
  · norm_num [activeStakingPower, hsd, hed, hz, hp]

/-- C3 (amended): for every non-empty record list, the sum of the per-day
deltas over the full output range equals the staking power of records whose
start day falls in the range minus that of records whose end day falls in
the range (as stated); and, provided additionally that every record with a
truthy `endTs` has its start bucket no later than its end bucket, the final
cumulative value of the emitted series equals the total staking power of
lockups still active as of the current day. -/
theorem c3_round_trip_amended (rs : List Staker) (today : ℤ) (hne : rs ≠ []) :
    ∃ e out, earliestDay rs = some e ∧ aggregate rs today = Except.ok out ∧
      ((dayRange e today).map fun d => deltaStakingPower rs d).sum
        = sumStartIn rs e today - sumEndIn rs e today ∧
      ((∀ r ∈ rs, r.endTs ≠ 0 → startDay r ≤ endDay r) → e ≤ today →
        (out.getLast?).map DayEntry.totalStakingPower
          = some (activeStakingPower rs today)) := by
  obtain ⟨e, he⟩ := earliestDay_isSome hne
  refine ⟨e, cumulFrom rs (dayRange e today) 0 0, he, ?_,
    sum_deltas_eq rs e today, ?_⟩
  · unfold aggregate
    rw [he]
  · intro hdeg htoday
    rw [cumulFrom_getLast_sp rs (dayRange e today) 0 0
      (dayRange_ne_nil htoday)]
    congr 1
    rw [zero_add, sum_deltas_eq]
    apply sub_sums_eq_active
    · intro r hr
      exact earliestDay_le he _ (startDay_mem_eventDays hr)
    · intro r hr h0
      exact ⟨earliestDay_le he _ (endDay_mem_eventDays hr h0), hdeg r hr h0⟩

/-- Witness for the amended C3 at a well-formed one-record list. -/
theorem c3_witness :
    ([c9Good] : List Staker) ≠ [] ∧
      (∃ e out, earliestDay [c9Good] = some e ∧
        aggregate [c9Good] 20 = Except.ok out ∧
        ((dayRange e 20).map fun d => deltaStakingPower [c9Good] d).sum
          = sumStartIn [c9Good] e 20 - sumEndIn [c9Good] e 20 ∧
        ((∀ r ∈ ([c9Good] : List Staker), r.endTs ≠ 0 →
              startDay r ≤ endDay r) → e ≤ 20 →
          (out.getLast?).map DayEntry.totalStakingPower
            = some (activeStakingPower [c9Good] 20))) :=
  ⟨by simp, c3_round_trip_amended [c9Good] 20 (by simp)⟩

/-! ## Claim C6 -/

/-- C6: the aggregator reports the explicit error condition exactly on the
empty record list and returns a normal series on every non-empty one. -/
theorem c6_empty_input :
    (∀ today : ℤ, aggregate ([] : List Staker) today
        = Except.error "No staker data available to determine date range.")
    ∧ (∀ (rs : List Staker) (today : ℤ), rs ≠ [] →
        ∃ out, aggregate rs today = Except.ok out) := by
  constructor
  · intro today
    rfl
  · intro rs today hne
    obtain ⟨e, he⟩ := earliestDay_isSome hne
    refine ⟨cumulFrom rs (dayRange e today) 0 0, ?_⟩
    unfold aggregate
    rw [he]

/-- Witness for C6: a concrete non-empty list reaches the success branch. -/
theorem c6_witness :
    ([c5s1] : List Staker) ≠ [] ∧
      ∃ out, aggregate [c5s1] 0 = Except.ok out :=
  ⟨by simp, c6_empty_input.2 [c5s1] 0 (by simp)⟩

/-! ## Claim C9 -/

/-- A degenerate record (`endTs = 0 ≤ startTs`) whose start bucket (day 0)
precedes every bucket of the non-degenerate record. -/
def c9Deg : Staker :=
  { wallet := "deg", uiStakingPower := 7, uiAmount := 7, startTs := 0,
    endTs := 0, duration := 0 }

/-- C9 counterexample: with a degenerate record on day bucket 0 and a
non-degenerate record spanning buckets 10 to 20, the aggregator anchors its
range at bucket 0 — the degenerate record's bucket — whereas the earliest
bucket over the non-degenerate records alone is 10, so degenerate records
are not excluded from anchoring. -/
theorem c9_counterexample :
    c9Deg.endTs ≤ c9Deg.startTs ∧ c9Good.startTs < c9Good.endTs ∧
      earliestDay [c9Deg, c9Good] = some 0 ∧
      earliestNonDegenerateDay [c9Deg, c9Good] = some 10 ∧
      ((aggregate [c9Deg, c9Good] 20).toOption.bind List.head?).map
          DayEntry.day = some 0 ∧
      (0 : ℤ) ≠ 10 := by
  decide

/-- C9 (amended): every record — degenerate or not — participates in the
anchoring: the earliest bucket exists, lower-bounds each record's start
bucket (and truthy end bucket) and is attained by some record's bucket; no
individual record makes the aggregator raise — only the wholly empty list
does. -/
theorem c9_anchoring_amended (rs : List Staker) (today : ℤ) (r : Staker)
    (hr : r ∈ rs) :
    ∃ e out, earliestDay rs = some e ∧ aggregate rs today = Except.ok out ∧
      e ≤ startDay r ∧ (r.endTs ≠ 0 → e ≤ endDay r) ∧
      ∃ q ∈ rs, e = startDay q ∨ (q.endTs ≠ 0 ∧ e = endDay q) := by
  have hne : rs ≠ [] := by
    intro hc
    rw [hc] at hr
    exact absurd hr (List.not_mem_nil r)
  obtain ⟨e, he⟩ := earliestDay_isSome hne
  refine ⟨e, cumulFrom rs (dayRange e today) 0 0, he, ?_, ?_, ?_, ?_⟩
  · unfold aggregate
    rw [he]
  · exact earliestDay_le he _ (startDay_mem_eventDays hr)
  · intro h0
    exact earliestDay_le he _ (endDay_mem_eventDays hr h0)
  · exact eventDays_mem_elim (earliestDay_mem he)

/-- Witness for the amended C9 at the degenerate-plus-good pair. -/
theorem c9_witness :
    c9Deg ∈ ([c9Deg, c9Good] : List Staker) ∧
      ∃ e out, earliestDay [c9Deg, c9Good] = some e ∧
        aggregate [c9Deg, c9Good] 20 = Except.ok out ∧
        e ≤ startDay c9Deg ∧ (c9Deg.endTs ≠ 0 → e ≤ endDay c9Deg) ∧
        ∃ q ∈ ([c9Deg, c9Good] : List Staker),
          e = startDay q ∨ (q.endTs ≠ 0 ∧ e = endDay q) :=
  ⟨List.mem_cons_self _ _,
    c9_anchoring_amended [c9Deg, c9Good] 20 c9Deg (List.mem_cons_self _ _)⟩

/-! ## Claim C7 -/

/-- C7: evidence of the fallback divergence.  After a fetch that fails with
HTTP status 500, the component state does hold the bundled sample snapshot
with the sample-data flag raised, but because the catch block also records
the error message, the post-loading render takes the early error return:
the error panel is shown and the sample dashboard with its notice is never
rendered.  The `InfoMessage` branch guarded by `usingMockData` is dead code
in this variant, contradicting the documented fallback behaviour (which the
non-validating `App` variant in the repository does implement). -/
theorem c7_fallback_divergence :
    fetchStep (FetchOutcome.httpError 500)
        = { data := some mockPayload,
            error := some "HTTP error! status: 500",
            usingMockData := true }
      ∧ render (fetchStep (FetchOutcome.httpError 500))
          = RenderView.errorPanel "HTTP error! status: 500" := by
  constructor <;> rfl

/-! ## Claim C10 -/

/-- A structurally complete payload whose `totalUIStakingPower` is the
legitimate number 0. -/
def c10Payload : RawPayload :=
  { ts := "2025-01-01T00:00:00.000Z"
    totalUIStaked := some 5
    totalLockups := some 1
    totalUIStakingPower := some 0
    stakers := some [] }

/-- C10 counterexample: a structurally complete payload with
`totalUIStakingPower = 0` is rejected by the falsiness validation and, as
in C7, what is then rendered is the error panel — not the sample dashboard
with its notice — so the claim's displayed-notice clause fails as stated. -/
theorem c10_counterexample :
    c10Payload.stakers.isSome = true ∧
      c10Payload.totalUIStakingPower = some 0 ∧
      render (fetchStep (FetchOutcome.payload c10Payload))
        = RenderView.errorPanel "Missing required fields in API response" := by
  refine ⟨rfl, rfl, rfl⟩

/-- C10 (amended): a structurally complete response whose
`totalUIStakingPower` or `totalUIStaked` equals 0 is treated identically to
a missing-field failure: the resulting state is exactly the one produced
when the `stakers` field is absent — the snapshot slot holds the bundled
sample data, the mock-data flag is set and the missing-fields error is
recorded (so the render shows the error panel rather than the notice, as in
C7). -/
theorem c10_zero_totals_amended (raw : RawPayload)
    (_hs : raw.stakers.isSome = true)
    (hz : raw.totalUIStakingPower = some 0 ∨ raw.totalUIStaked = some 0) :
    fetchStep (FetchOutcome.payload raw)
        = fetchStep (FetchOutcome.payload { raw with stakers := none })
      ∧ (fetchStep (FetchOutcome.payload raw)).data = some mockPayload
      ∧ (fetchStep (FetchOutcome.payload raw)).usingMockData = true
      ∧ (fetchStep (FetchOutcome.payload raw)).error
          = some "Missing required fields in API response" := by
  have hv : validFields raw = false := by
    unfold validFields truthyNum
    rcases hz with h | h <;> rw [h] <;> simp
  have hv2 : validFields { raw with stakers := none } = false := by
    unfold validFields
    simp
  simp [fetchStep, hv, hv2, fallbackState]

/-- Witness for the amended C10 at the zero-total payload. -/
theorem c10_witness :
    c10Payload.stakers.isSome = true ∧
      (c10Payload.totalUIStakingPower = some 0 ∨
        c10Payload.totalUIStaked = some 0) ∧
      (fetchStep (FetchOutcome.payload c10Payload)
          = fetchStep (FetchOutcome.payload { c10Payload with stakers := none })
        ∧ (fetchStep (FetchOutcome.payload c10Payload)).data = some mockPayload
        ∧ (fetchStep (FetchOutcome.payload c10Payload)).usingMockData = true
        ∧ (fetchStep (FetchOutcome.payload c10Payload)).error
            = some "Missing required fields in API response") :=
  ⟨rfl, Or.inl rfl,
    c10_zero_totals_amended c10Payload rfl (Or.inl rfl)⟩

end MEDash
